import Mathlib

/-
Verification of the mock-server repository (src/server.go) against its
natural-language specification.  The Go program is shallowly embedded below:
pure data transformations become Lean functions, the per-request dispatch
chain becomes a recursive function over the ordered middleware list, and the
directory traversal's bounded channel becomes an explicit queue whose send
operation can block (a buffered Go channel send blocks when the buffer is
full; with a single goroutine this is a deadlock).
-/

set_option autoImplicit false

namespace MockServer

/-- JSON values as Go `encoding/json` decodes them into an empty interface:
null, bool, number, string, array (`[]interface`), object (`map[string]interface`).
Numbers are modeled as integers (Go decodes into float64; every number in this
development is integral, and Go renders an integral float64 exactly as its
decimal integer text).  Object fields keep the textual order of the document;
the decoded Go map is unordered, so every renderer below sorts fields by key,
exactly as `encoding/json` and `fmt` do when printing maps. -/
inductive Json where
  | null
  | bool (b : Bool)
  | num (n : Int)
  | str (s : String)
  | arr (xs : List Json)
  | obj (fields : List (String × Json))

/-- Lower-case hexadecimal digit, as Go's JSON encoder emits in escape sequences. -/
def hexDigit (n : Nat) : Char :=
  if n < 10 then Char.ofNat (48 + n) else Char.ofNat (87 + n)

/-- Escape one character of a JSON string literal, following `encoding/json`
(whose HTML escaping of angle brackets and ampersand is on by default). -/
def escapeChar (c : Char) : String :=
  if c = '"' then "\\\""
  else if c = '\\' then "\\\\"
  else if c = '\n' then "\\n"
  else if c = '\r' then "\\r"
  else if c = '\t' then "\\t"
  else if c = '<' then "\\u003c"
  else if c = '>' then "\\u003e"
  else if c = '&' then "\\u0026"
  else if c.toNat < 32 then
    "\\u00" ++ String.mk [hexDigit (c.toNat / 16), hexDigit (c.toNat % 16)]
  else if c.toNat = 8232 then "\\u2028"
  else if c.toNat = 8233 then "\\u2029"
  else String.singleton c

/-- JSON string literal for `s` (quotes plus escaping). -/
def jsonQuote (s : String) : String :=
  "\"" ++ String.join (s.toList.map escapeChar) ++ "\""

/-- Strict lexicographic order on character lists by codepoint. -/
def charListLt : List Char → List Char → Bool
  | _, [] => false
  | [], _ :: _ => true
  | c :: cs, d :: ds =>
    if c.toNat < d.toNat then true
    else if d.toNat < c.toNat then false
    else charListLt cs ds

/-- Go's bytewise string order; on UTF-8 encoded text the bytewise order is
exactly the codepoint-lexicographic order. -/
def strLt (a b : String) : Bool := charListLt a.toList b.toList

/-- Insert into a key-sorted list of rendered pairs (Go sorts map keys bytewise
when marshalling or printing a map). -/
def insertPair (x : String × String) : List (String × String) → List (String × String)
  | [] => [x]
  | y :: rest => if strLt y.1 x.1 then y :: insertPair x rest else x :: y :: rest

/-- Insertion sort of rendered (key, value) pairs by key. -/
def sortPairs : List (String × String) → List (String × String)
  | [] => []
  | x :: rest => insertPair x (sortPairs rest)

/-- Join rendered object fields as compact JSON members. -/
def joinPairsComma (ps : List (String × String)) : String :=
  String.intercalate "," (ps.map (fun p => jsonQuote p.1 ++ ":" ++ p.2))

/-- Join rendered map entries the way Go's `fmt` prints a map: space-separated. -/
def joinPairsSpace (ps : List (String × String)) : String :=
  String.intercalate " " (ps.map (fun p => p.1 ++ ":" ++ p.2))

mutual
/-- Model of Go `json.Marshal` applied to a decoded JSON value: compact output,
object keys sorted, strings escaped.  (On the values produced by decoding a
mock file this never errors, matching the unreachable `log.Fatalf` branch of
`serialize` in server.go.) -/
def jsonMarshal : Json → String
  | .null => "null"
  | .bool true => "true"
  | .bool false => "false"
  | .num n => toString n
  | .str s => jsonQuote s
  | .arr xs => "[" ++ jsonMarshalElems xs ++ "]"
  | .obj fs => "\x7b" ++ joinPairsComma (sortPairs (jsonMarshalFields fs)) ++ "\x7d"

/-- Comma-separated marshalling of array elements. -/
def jsonMarshalElems : List Json → String
  | [] => ""
  | [x] => jsonMarshal x
  | x :: y :: rest => jsonMarshal x ++ "," ++ jsonMarshalElems (y :: rest)

/-- Marshal each object field's value, keeping the key. -/
def jsonMarshalFields : List (String × Json) → List (String × String)
  | [] => []
  | (k, v) :: rest => (k, jsonMarshal v) :: jsonMarshalFields rest
end

mutual
/-- Model of Go `fmt.Sprint` applied to a decoded JSON value: the `%v` verb.
A nil interface prints as the five characters of `<nil>`, a string prints as
itself with no quotes, an array prints bracketed and space-separated, a map
prints as `map[k:v ...]` with keys sorted. -/
def goSprint : Json → String
  | .null => "<nil>"
  | .bool true => "true"
  | .bool false => "false"
  | .num n => toString n
  | .str s => s
  | .arr xs => "[" ++ goSprintElems xs ++ "]"
  | .obj fs => "map[" ++ joinPairsSpace (sortPairs (goSprintFields fs)) ++ "]"

/-- Space-separated printing of array elements. -/
def goSprintElems : List Json → String
  | [] => ""
  | [x] => goSprint x
  | x :: y :: rest => goSprint x ++ " " ++ goSprintElems (y :: rest)

/-- Print each map entry's value, keeping the key. -/
def goSprintFields : List (String × Json) → List (String × String)
  | [] => []
  | (k, v) :: rest => (k, goSprint v) :: goSprintFields rest
end

/-- Model of `serialize` (server.go lines 160-171): a value that is a Go map —
a decoded JSON object — is marshalled as compact JSON; every other value falls
to the `default` branch and is rendered with `fmt.Sprint`. -/
def serialize : Json → String
  | .obj fs => jsonMarshal (.obj fs)
  | v => goSprint v

example : serialize (.obj [("a", .num 1)]) = "\x7b\"a\":1\x7d" := rfl

example : serialize (.str "ok") = "ok" := rfl

example : serialize .null = "<nil>" := rfl

/-! ## Data model (server.go lines 14-45) -/

/-- The `SERVER_NAME` constant of server.go. -/
def SERVER_NAME : String := "mock-server"

/-- The `MAX_DIRECTORY_COUNT` constant of server.go: both the capacity of the
`dirStack` channel and the bound tested by `loadMocks`. -/
def MAX_DIRECTORY_COUNT : Nat := 20

/-- The `MockResponseDefinition` struct.  `Body` is a decoded `interface` value
(absent or JSON null gives the nil interface, modeled as `Json.null`);
`Headers` is a decoded `map[string]string`, modeled as an association list with
unique keys (a nil map is the empty list); `StatusCode` is an `int` whose Go
zero value is 0. -/
structure MockResponseDefinition where
  body : Json
  headers : List (String × String)
  statusCode : Int

/-- The `MockDefinition` struct: endpoint pattern, HTTP method, response spec. -/
structure MockDefinition where
  endpoint : String
  method : String
  response : MockResponseDefinition

/-- Zero value of `MockResponseDefinition` (what `json.Unmarshal` leaves when a
field is missing or null). -/
def zeroResponse : MockResponseDefinition := ⟨Json.null, [], 0⟩

/-- Zero value of `MockDefinition`. -/
def zeroMock : MockDefinition := ⟨"", "", zeroResponse⟩

/-! ## Decoding mock files (model of `json.Unmarshal` on the two struct shapes)

Go's decoder keeps the last of duplicate object keys, treats a JSON null as a
no-op (leaving the Go zero value), ignores unknown fields, and errors when a
present field has the wrong type.  Go's case-insensitive field-name fallback is
not modeled (no claim depends on it). -/

/-- Field lookup in a decoded JSON object: the last occurrence of a duplicated
key wins, as in Go's decoder. -/
def objLookup : List (String × Json) → String → Option Json
  | [], _ => none
  | (k, v) :: rest, key =>
    match objLookup rest key with
    | some w => some w
    | none => if k = key then some v else none

/-- Drop all but the last occurrence of each key, as decoding into a Go map does. -/
def dedupFields : List (String × Json) → List (String × Json)
  | [] => []
  | (k, v) :: rest =>
    if (rest.map Prod.fst).contains k then dedupFields rest
    else (k, v) :: dedupFields rest

mutual
/-- Decoding a JSON document into `interface` collapses duplicate object keys
(map semantics, last wins) at every level; this normalization models that. -/
def normalizeJson : Json → Json
  | .null => .null
  | .bool b => .bool b
  | .num n => .num n
  | .str s => .str s
  | .arr xs => .arr (normalizeList xs)
  | .obj fs => .obj (dedupFields (normalizeFields fs))

/-- Normalize each element of a decoded array. -/
def normalizeList : List Json → List Json
  | [] => []
  | x :: rest => normalizeJson x :: normalizeList rest

/-- Normalize each field value of a decoded object. -/
def normalizeFields : List (String × Json) → List (String × Json)
  | [] => []
  | (k, v) :: rest => (k, normalizeJson v) :: normalizeFields rest
end

/-- Decode a value into a Go `string` field: a string yields itself, null is a
no-op leaving the zero value, anything else is a type error. -/
def decodeGoString : Json → Option String
  | .str s => some s
  | .null => some ""
  | _ => none

/-- Decode a `string`-typed struct field that may be absent. -/
def decodeStringField (fs : List (String × Json)) (key : String) : Option String :=
  match objLookup fs key with
  | none => some ""
  | some v => decodeGoString v

/-- Decode the entries of a JSON object into `map[string]string` values. -/
def decodeHeaderFields : List (String × Json) → Option (List (String × String))
  | [] => some []
  | (k, v) :: rest => do
    let s ← decodeGoString v
    let tl ← decodeHeaderFields rest
    pure ((k, s) :: tl)

/-- Drop all but the last occurrence of each header key (Go map semantics). -/
def dedupHeaders : List (String × String) → List (String × String)
  | [] => []
  | (k, v) :: rest =>
    if (rest.map Prod.fst).contains k then dedupHeaders rest
    else (k, v) :: dedupHeaders rest

/-- Decode the optional `headers` field into a `map[string]string`. -/
def decodeHeaders : Option Json → Option (List (String × String))
  | none => some []
  | some .null => some []
  | some (.obj fs) => (decodeHeaderFields fs).map dedupHeaders
  | some _ => none

/-- Decode the optional `statusCode` field into a Go `int`. -/
def decodeStatusCode : Option Json → Option Int
  | none => some 0
  | some .null => some 0
  | some (.num n) => some n
  | some _ => none

/-- Decode the optional `response` field into a `MockResponseDefinition`. -/
def decodeResponse : Option Json → Option MockResponseDefinition
  | none => some zeroResponse
  | some .null => some zeroResponse
  | some (.obj fs) => do
    let headers ← decodeHeaders (objLookup fs "headers")
    let statusCode ← decodeStatusCode (objLookup fs "statusCode")
    let body := match objLookup fs "body" with
      | none => Json.null
      | some v => normalizeJson v
    pure ⟨body, headers, statusCode⟩
  | some _ => none

/-- Decode one JSON value as a `MockDefinition` (the "single Mock Definition"
shape tried by `loadMockFromJson`). -/
def decodeMock : Json → Option MockDefinition
  | .null => some zeroMock
  | .obj fs => do
    let endpoint ← decodeStringField fs "endpoint"
    let method ← decodeStringField fs "method"
    let response ← decodeResponse (objLookup fs "response")
    pure ⟨endpoint, method, response⟩
  | _ => none

/-- Decode every element of a JSON array as a `MockDefinition`. -/
def decodeMockElems : List Json → Option (List MockDefinition)
  | [] => some []
  | x :: rest => do
    let m ← decodeMock x
    let ms ← decodeMockElems rest
    pure (m :: ms)

/-- Decode one JSON value as `[]MockDefinition` (the "array of Mock Definition"
shape tried first by `loadMockFromJson`; a JSON null decodes a slice to nil,
hence the empty list). -/
def decodeMockList : Json → Option (List MockDefinition)
  | .null => some []
  | .arr xs => decodeMockElems xs
  | _ => none

/-- Load-time errors of the loader, by kind (the Go code returns `error` values;
the constructors carry the same information as the formatted messages). -/
inductive LoadError where
  | dirLimitExceeded (limit : Nat)
  | invalidJson (path : String)
  | schemaError (path : String)

/-- Model of `loadMockFromJson` (server.go lines 206-232).  The file's bytes
are given as `none` when they are not syntactically valid JSON (the
`json.Valid` check) and as `some j` otherwise.  The two unmarshal attempts are
made in order: first `[]MockDefinition`, then `MockDefinition`. -/
def loadMockFromJson (path : String) (content : Option Json) :
    Except LoadError (List MockDefinition) :=
  match content with
  | none => .error (.invalidJson path)
  | some j =>
    match decodeMockList j with
    | some listOfMocks => .ok listOfMocks
    | none =>
      match decodeMock j with
      | some mock => .ok [mock]
      | none => .error (.schemaError path)

/-! ## Response rendering (server.go lines 133-158) -/

/-- First-match lookup in an association list, the reading side of a Go map
whose keys are unique. -/
def lookupH : List (String × String) → String → Option String
  | [], _ => none
  | (k, v) :: rest, key => if k = key then some v else lookupH rest key

/-- Setting a key in an association list: replace the value if the key is
present, append otherwise — a Go map assignment. -/
def setKey : List (String × String) → String → String → List (String × String)
  | [], key, val => [(key, val)]
  | (k, v) :: rest, key, val =>
    if k = key then (k, val) :: rest else (k, v) :: setKey rest key val

/-- Overlay `upd` onto `base` by successive map assignments, as the
`for key, value := range mock.Response.Headers` loop does. -/
def overlay (base upd : List (String × String)) : List (String × String) :=
  upd.foldl (fun acc kv => setKey acc kv.1 kv.2) base

/-- The fixed base headers built at the top of the returned handler. -/
def baseHeaders : List (String × String) :=
  [("Content-Type", "application/json"), ("Server", SERVER_NAME)]

/-- What one HTTP response write looks like to the client: the status code
passed to `WriteHeader`, the headers added beforehand, and the body bytes. -/
structure HttpReply where
  status : Int
  headers : List (String × String)
  body : String

/-- Model of `handleMockResponse` (server.go lines 133-158): the response the
returned handler writes.  Status 0 is normalized to 200, the mock's headers are
overlaid on the base headers, and the body is `serialize` of the mock's body.
(The handler never calls its `next` continuation: it is terminal.) -/
def handleMockResponse (mock : MockDefinition) : HttpReply :=
  { status := if mock.response.statusCode = 0 then 200 else mock.response.statusCode
    headers := overlay baseHeaders mock.response.headers
    body := serialize mock.response.body }

/-! ## Dispatch chain (server.go lines 90-117) -/

/-- Observable behavior of a middleware handler when invoked: write a complete
reply and return (what `handleMockResponse`'s handler does), call `next` with a
non-nil error, or call `next` with nil to continue the scan. -/
inductive MWBehavior where
  | write (reply : HttpReply)
  | signalError
  | passNext

/-- The `ChainMiddleware` struct: an HTTP method plus the handler, the latter
modeled by its observable behavior. -/
structure ChainMiddleware where
  method : String
  behavior : MWBehavior

/-- The middleware appended for one mock definition: its method together with
`handleMockResponse` of the mock. -/
def mockMiddleware (mock : MockDefinition) : ChainMiddleware :=
  ⟨mock.method, .write (handleMockResponse mock)⟩

/-- The write performed when the scan runs past the last middleware:
`w.WriteHeader(404)` with no headers added and no body written. -/
def notFoundReply : HttpReply := ⟨404, [], ""⟩

/-- The write performed when `next` receives a non-nil error:
`w.WriteHeader(500)` with no headers added and no body written. -/
def serverErrorReply : HttpReply := ⟨500, [], ""⟩

/-- Model of the `next` closure (server.go lines 96-113) started by `next(nil)`:
advance through the middleware list; past the end write 404; on a method match
invoke the middleware (a written reply is terminal, a non-nil error passed to
`next` writes 500 and stops, a nil `next` call continues); otherwise keep
scanning. -/
def runChainFrom (method : String) : List ChainMiddleware → HttpReply
  | [] => notFoundReply
  | mw :: rest =>
    if method = mw.method then
      match mw.behavior with
      | .write reply => reply
      | .signalError => serverErrorReply
      | .passNext => runChainFrom method rest
    else runChainFrom method rest

/-! ## Route table construction (server.go lines 47-131) -/

/-- First-match lookup in an association list with values of any type
(the `routeChain` map read). -/
def alLookup {α : Type} : List (String × α) → String → Option α
  | [], _ => none
  | (k, v) :: rest, key => if k = key then some v else alLookup rest key

/-- Map assignment in an association list with values of any type. -/
def alSet {α : Type} : List (String × α) → String → α → List (String × α)
  | [], key, val => [(key, val)]
  | (k, v) :: rest, key, val =>
    if k = key then (k, val) :: rest else (k, v) :: alSet rest key val

/-- The `routeChain` global: endpoint pattern to ordered middleware list.  (The
`RouteChain.Handler` field is the shared per-endpoint closure; its behavior is
`runChainFrom` over the entry's final middleware list, so the table keeps only
the list.) -/
abbrev RouteTable := List (String × List ChainMiddleware)

/-- Model of `generateMockHandler` (server.go lines 72-131): if the endpoint is
already in `routeChain`, append a middleware for this mock to its list and
return no handler (`nil`); otherwise create a one-middleware entry and return
the new dispatcher handler.  The boolean records whether a handler was
returned. -/
def generateMockHandler (table : RouteTable) (mock : MockDefinition) :
    RouteTable × Bool :=
  match alLookup table mock.endpoint with
  | some middlewares =>
    (alSet table mock.endpoint (middlewares ++ [mockMiddleware mock]), false)
  | none => (table ++ [(mock.endpoint, [mockMiddleware mock])], true)

/-- One iteration of the registration loop in `main` (server.go lines 61-66):
run `generateMockHandler` and, when it returns a non-nil handler, register the
endpoint with `mux.HandleFunc`. -/
def registerStep (acc : RouteTable × List String) (mock : MockDefinition) :
    RouteTable × List String :=
  let r := generateMockHandler acc.1 mock
  (r.1, if r.2 then acc.2 ++ [mock.endpoint] else acc.2)

/-- Model of the registration loop in `main`: fold the definitions through
`generateMockHandler`, recording in the second component the endpoints whose
non-nil handler was registered with the mux. -/
def buildRoutes (mocks : List MockDefinition) : RouteTable × List String :=
  mocks.foldl registerStep ([], [])

/-- Serving one request after startup: the mux routes an exact endpoint match
to the endpoint's dispatcher (none registered gives the framework default,
modeled as `none`); the dispatcher reads the final `routeChain` entry and runs
the chain. -/
def serveRequest (mocks : List MockDefinition) (method endpoint : String) :
    Option HttpReply :=
  match alLookup (buildRoutes mocks).1 endpoint with
  | none => none
  | some middlewares => some (runChainFrom method middlewares)

/-- The definitions loaded for one endpoint, in load order. -/
def mocksFor (mocks : List MockDefinition) (endpoint : String) : List MockDefinition :=
  mocks.filter (fun d => d.endpoint == endpoint)

/-! ## Mock loader (server.go lines 173-204)

`loadMocks` traverses the tree with `dirStack`, a buffered channel of capacity
`MAX_DIRECTORY_COUNT` used as a FIFO work queue by the single goroutine.  Two
channel facts are embedded exactly: the length of a buffered channel never
exceeds its capacity, and a send to a full buffered channel blocks — with no
other goroutine to receive, forever (`LoadOutcome.blocked`).  Directory
entries are visited in name order, as `os.ReadDir` returns them; file paths
are abbreviated to entry names (they only label error values). -/

/-- One node of the scanned directory tree.  A file's bytes are `none` when
they are not syntactically valid JSON and `some j` when they parse as `j`. -/
inductive FsNode where
  | file (name : String) (data : Option Json)
  | dir (name : String) (entries : List FsNode)

/-- Name of a directory entry. -/
def entryName : FsNode → String
  | .file n _ => n
  | .dir n _ => n

/-- Insert into a name-sorted entry list (bytewise name order, as `os.ReadDir`
sorts). -/
def insertEntry (x : FsNode) : List FsNode → List FsNode
  | [] => [x]
  | y :: rest =>
    if strLt (entryName y) (entryName x) then y :: insertEntry x rest else x :: y :: rest

/-- Sort a directory's entries by name, as `os.ReadDir` does. -/
def sortEntries : List FsNode → List FsNode
  | [] => []
  | x :: rest => insertEntry x (sortEntries rest)

mutual
/-- Size of a tree node, the termination measure of the traversal. -/
def nodeSize : FsNode → Nat
  | .file _ _ => 1
  | .dir _ entries => 1 + entriesSize entries

/-- Total size of a list of nodes. -/
def entriesSize : List FsNode → Nat
  | [] => 0
  | n :: rest => nodeSize n + entriesSize rest
end

/-- Contribution of one entry to the queue measure when its directory is
processed: a pushed subdirectory adds one queue slot plus its own entries. -/
def nodeWeight : FsNode → Nat
  | .file _ _ => 0
  | .dir _ sub => 1 + entriesSize sub

/-- Total queue-measure contribution of a directory's entries. -/
def dirsWeight : List FsNode → Nat
  | [] => 0
  | n :: rest => nodeWeight n + dirsWeight rest

/-- Measure of the pending work queue. -/
def queueMeasure : List (List FsNode) → Nat
  | [] => 0
  | es :: q => 1 + entriesSize es + queueMeasure q

/-- Sending a directory on `dirStack`: blocks (`none`) exactly when the buffer
already holds `MAX_DIRECTORY_COUNT` directories, otherwise enqueues at the
back. -/
def pushDir (q : List (List FsNode)) (entries : List FsNode) :
    Option (List (List FsNode)) :=
  if q.length = MAX_DIRECTORY_COUNT then none else some (q ++ [entries])

/-- Result of processing the entries of one popped directory. -/
inductive StepResult where
  | ok (q : List (List FsNode)) (mocks : List MockDefinition)
  | fail (e : LoadError)
  | blocked

/-- The `for _, entry := range entries` body of `loadMocks`: push each
subdirectory (possibly blocking on a full channel), load each file whose name
ends in `.json`, fail fast on a load error, skip other files. -/
def processEntries : List FsNode → List (List FsNode) → List MockDefinition → StepResult
  | [], q, mocks => .ok q mocks
  | .dir _ sub :: rest, q, mocks =>
    match pushDir q sub with
    | none => .blocked
    | some q2 => processEntries rest q2 mocks
  | .file name data :: rest, q, mocks =>
    if name.endsWith ".json" then
      match loadMockFromJson name data with
      | .error e => .fail e
      | .ok ms => processEntries rest q (mocks ++ ms)
    else processEntries rest q mocks

/-- Outcome of a whole load: the collected definitions, a returned error, or a
forever-blocked channel send (in Go, a deadlock of the only goroutine). -/
inductive LoadOutcome where
  | ok (mocks : List MockDefinition)
  | fail (e : LoadError)
  | blocked

theorem queueMeasure_append (q : List (List FsNode)) (es : List FsNode) :
    queueMeasure (q ++ [es]) = queueMeasure q + (1 + entriesSize es) := by
  induction q with
  | nil => simp [queueMeasure]
  | cons hd tl ih =>
    show queueMeasure (hd :: (tl ++ [es])) = queueMeasure (hd :: tl) + (1 + entriesSize es)
    have h1 : queueMeasure (hd :: (tl ++ [es])) =
        1 + entriesSize hd + queueMeasure (tl ++ [es]) := rfl
    have h2 : queueMeasure (hd :: tl) = 1 + entriesSize hd + queueMeasure tl := rfl
    rw [h1, h2, ih]
    omega

theorem processEntries_ok_measure (entries : List FsNode) :
    ∀ q mocks q2 m2, processEntries entries q mocks = .ok q2 m2 →
      queueMeasure q2 ≤ queueMeasure q + dirsWeight entries := by
  induction entries with
  | nil =>
    intro q mocks q2 m2 h
    simp only [processEntries] at h
    cases h
    simp [dirsWeight]
  | cons hd rest ih =>
    intro q mocks q2 m2 h
    cases hd with
    | dir n sub =>
      simp only [processEntries, pushDir] at h
      by_cases hfull : q.length = MAX_DIRECTORY_COUNT
      · simp [hfull] at h
      · simp only [hfull, if_neg, ite_false] at h
        have := ih (q ++ [sub]) mocks q2 m2 h
        rw [queueMeasure_append] at this
        simp only [dirsWeight, nodeWeight]
        omega
    | file name data =>
      simp only [processEntries] at h
      by_cases hjson : name.endsWith ".json"
      · simp only [hjson, if_pos, ite_true] at h
        cases hload : loadMockFromJson name data with
        | error e => rw [hload] at h; exact absurd h (by simp)
        | ok ms =>
          rw [hload] at h
          have := ih q (mocks ++ ms) q2 m2 h
          simp only [dirsWeight, nodeWeight]
          omega
      · simp only [hjson, ite_false] at h
        have := ih q mocks q2 m2 h
        simp only [dirsWeight, nodeWeight]
        omega

theorem dirsWeight_le_entriesSize (entries : List FsNode) :
    dirsWeight entries ≤ entriesSize entries := by
  induction entries with
  | nil => simp [dirsWeight, entriesSize]
  | cons hd tl ih =>
    cases hd <;> simp only [dirsWeight, nodeWeight, entriesSize, nodeSize] <;> omega

theorem dirsWeight_insertEntry (x : FsNode) (l : List FsNode) :
    dirsWeight (insertEntry x l) = nodeWeight x + dirsWeight l := by
  induction l with
  | nil => simp [insertEntry, dirsWeight]
  | cons y rest ih =>
    simp only [insertEntry]
    split
    · simp only [dirsWeight, ih]; omega
    · simp only [dirsWeight]

theorem dirsWeight_sortEntries (l : List FsNode) :
    dirsWeight (sortEntries l) = dirsWeight l := by
  induction l with
  | nil => rfl
  | cons x rest ih => simp only [sortEntries, dirsWeight_insertEntry, dirsWeight, ih]

/-- Model of the `for len(dirStack) > 0` loop of `loadMocks`: pop the front
directory (after the dead `len > MAX_DIRECTORY_COUNT` check), process its
sorted entries, and continue with the grown queue. -/
def loadMocksAux : List (List FsNode) → List MockDefinition → LoadOutcome
  | [], mocks => .ok mocks
  | es :: rest, mocks =>
    if (es :: rest).length > MAX_DIRECTORY_COUNT then
      .fail (.dirLimitExceeded MAX_DIRECTORY_COUNT)
    else
      match hp : processEntries (sortEntries es) rest mocks with
      | .fail e => .fail e
      | .blocked => .blocked
      | .ok q2 m2 => loadMocksAux q2 m2
termination_by q _ => queueMeasure q
decreasing_by
  have h1 := processEntries_ok_measure (sortEntries es) rest mocks q2 m2 hp
  have h2 := dirsWeight_sortEntries es
  have h3 := dirsWeight_le_entriesSize es
  simp only [queueMeasure]
  omega

/-- Model of `loadMocks` on a root directory given by its entries: the root
path is sent on the fresh channel and the loop runs. -/
def loadMocks (root : List FsNode) : LoadOutcome := loadMocksAux [root] []

/-! ## Association-list lemmas -/

theorem alLookup_alSet_self {α : Type} (l : List (String × α)) (k : String) (v : α) :
    alLookup (alSet l k v) k = some v := by
  induction l with
  | nil => simp [alSet, alLookup]
  | cons hd tl ih =>
    by_cases h : hd.1 = k
    · simp [alSet, alLookup, h]
    · simp [alSet, alLookup, h, ih]

theorem alLookup_alSet_ne {α : Type} (l : List (String × α)) (key k : String) (v : α)
    (h : k ≠ key) : alLookup (alSet l key v) k = alLookup l k := by
  induction l with
  | nil => simp [alSet, alLookup, Ne.symm h]
  | cons hd tl ih =>
    by_cases hk : hd.1 = key
    · simp [alSet, alLookup, hk, Ne.symm h]
    · simp only [alSet, hk, ite_false, alLookup]
      by_cases hh : hd.1 = k
      · simp [hh]
      · simp [hh, ih]

theorem alLookup_append {α : Type} (l m : List (String × α)) (k : String) :
    alLookup (l ++ m) k =
      match alLookup l k with
      | some v => some v
      | none => alLookup m k := by
  induction l with
  | nil => simp [alLookup]
  | cons hd tl ih =>
    by_cases h : hd.1 = k
    · simp [alLookup, h]
    · simp [alLookup, h, ih]

/-- The middleware list an endpoint's `routeChain` entry ends up with, given
the entry before some definitions are consumed and the definitions for that
endpoint among them. -/
def chainExtend (prev : Option (List ChainMiddleware)) (l : List MockDefinition) :
    Option (List ChainMiddleware) :=
  match prev, l with
  | some mws, l => some (mws ++ l.map mockMiddleware)
  | none, [] => none
  | none, d :: rest => some ((d :: rest).map mockMiddleware)

theorem mocksFor_cons (mock : MockDefinition) (rest : List MockDefinition) (e : String) :
    mocksFor (mock :: rest) e =
      if mock.endpoint = e then mock :: mocksFor rest e else mocksFor rest e := by
  by_cases h : mock.endpoint = e
  · have hb : (mock.endpoint == e) = true := beq_iff_eq.mpr h
    simp [mocksFor, List.filter_cons, hb, h]
  · have hb : (mock.endpoint == e) = false := beq_eq_false_iff_ne.mpr h
    simp [mocksFor, List.filter_cons, hb, h]

theorem lookup_foldl_registerStep (mocks : List MockDefinition) :
    ∀ (acc : RouteTable × List String) (e : String),
      alLookup (mocks.foldl registerStep acc).1 e =
        chainExtend (alLookup acc.1 e) (mocksFor mocks e) := by
  induction mocks with
  | nil =>
    intro acc e
    show alLookup acc.1 e = chainExtend (alLookup acc.1 e) (mocksFor [] e)
    cases h : alLookup acc.1 e <;> simp [chainExtend, mocksFor]
  | cons mock rest ih =>
    intro acc e
    show alLookup (rest.foldl registerStep (registerStep acc mock)).1 e = _
    rw [ih (registerStep acc mock) e, mocksFor_cons]
    cases hm : alLookup acc.1 mock.endpoint with
    | some mws =>
      have hstep : (registerStep acc mock).1 =
          alSet acc.1 mock.endpoint (mws ++ [mockMiddleware mock]) := by
        simp [registerStep, generateMockHandler, hm]
      by_cases he : mock.endpoint = e
      · subst he
        rw [hstep, alLookup_alSet_self, hm]
        simp [chainExtend]
      · rw [hstep, alLookup_alSet_ne _ _ _ _ (Ne.symm he)]
        simp [he]
    | none =>
      have hstep : (registerStep acc mock).1 =
          acc.1 ++ [(mock.endpoint, [mockMiddleware mock])] := by
        simp [registerStep, generateMockHandler, hm]
      by_cases he : mock.endpoint = e
      · subst he
        rw [hstep, alLookup_append, hm]
        simp [alLookup, chainExtend]
      · rw [hstep, alLookup_append]
        have hsingle : alLookup [(mock.endpoint, [mockMiddleware mock])] e = none := by
          simp [alLookup, he]
        rw [hsingle]
        cases hl : alLookup acc.1 e <;> simp [he]

theorem buildRoutes_lookup (mocks : List MockDefinition) (e : String) :
    alLookup (buildRoutes mocks).1 e = chainExtend none (mocksFor mocks e) := by
  have h := lookup_foldl_registerStep mocks ([], []) e
  simpa [buildRoutes, alLookup] using h

theorem buildRoutes_lookup_of_ne_nil (mocks : List MockDefinition) (e : String)
    (h : mocksFor mocks e ≠ []) :
    alLookup (buildRoutes mocks).1 e = some ((mocksFor mocks e).map mockMiddleware) := by
  rw [buildRoutes_lookup]
  cases hl : mocksFor mocks e with
  | nil => exact absurd hl h
  | cons d rest => simp [chainExtend]

theorem buildRoutes_lookup_of_nil (mocks : List MockDefinition) (e : String)
    (h : mocksFor mocks e = []) :
    alLookup (buildRoutes mocks).1 e = none := by
  rw [buildRoutes_lookup, h]
  rfl

/-- One registration step preserves the mux invariant: an endpoint is absent
from the table exactly when it was never registered with the mux, and the mux
registrations are distinct. -/
theorem registerStep_invariant (acc : RouteTable × List String) (mock : MockDefinition)
    (h1 : ∀ e, alLookup acc.1 e = none ↔ e ∉ acc.2) (h2 : acc.2.Nodup) :
    (∀ e, alLookup (registerStep acc mock).1 e = none ↔ e ∉ (registerStep acc mock).2)
    ∧ (registerStep acc mock).2.Nodup := by
  cases hm : alLookup acc.1 mock.endpoint with
  | some mws =>
    have hstep1 : (registerStep acc mock).1 =
        alSet acc.1 mock.endpoint (mws ++ [mockMiddleware mock]) := by
      simp [registerStep, generateMockHandler, hm]
    have hstep2 : (registerStep acc mock).2 = acc.2 := by
      simp [registerStep, generateMockHandler, hm]
    refine ⟨fun e => ?_, by rw [hstep2]; exact h2⟩
    rw [hstep1, hstep2]
    by_cases he : e = mock.endpoint
    · subst he
      rw [alLookup_alSet_self]
      have hmem : mock.endpoint ∈ acc.2 := by
        by_contra hc
        have hnone := (h1 mock.endpoint).mpr hc
        rw [hm] at hnone
        exact Option.noConfusion hnone
      simp [hmem]
    · rw [alLookup_alSet_ne _ _ _ _ he]
      exact h1 e
  | none =>
    have hstep1 : (registerStep acc mock).1 =
        acc.1 ++ [(mock.endpoint, [mockMiddleware mock])] := by
      simp [registerStep, generateMockHandler, hm]
    have hstep2 : (registerStep acc mock).2 = acc.2 ++ [mock.endpoint] := by
      simp [registerStep, generateMockHandler, hm]
    have hnotmem : mock.endpoint ∉ acc.2 := (h1 mock.endpoint).mp hm
    refine ⟨fun e => ?_, ?_⟩
    · rw [hstep1, hstep2, alLookup_append]
      by_cases he : e = mock.endpoint
      · subst he
        rw [hm]
        simp [alLookup]
      · have hsingle : alLookup [(mock.endpoint, [mockMiddleware mock])] e = none := by
          simp [alLookup, Ne.symm he]
        rw [hsingle]
        cases hl : alLookup acc.1 e with
        | some w =>
          have hmem : e ∈ acc.2 := by
            by_contra hc
            have hnone := (h1 e).mpr hc
            rw [hl] at hnone
            exact Option.noConfusion hnone
          simp [List.mem_append, hmem]
        | none =>
          have hnm := (h1 e).mp hl
          simp [List.mem_append, hnm, he]
    · rw [hstep2]
      simp [List.nodup_append, h2, hnotmem]

/-- The mux invariant carried through the whole registration fold. -/
theorem mux_foldl_invariant (mocks : List MockDefinition) :
    ∀ (acc : RouteTable × List String),
      (∀ e, alLookup acc.1 e = none ↔ e ∉ acc.2) → acc.2.Nodup →
      (∀ e, alLookup (mocks.foldl registerStep acc).1 e = none ↔
          e ∉ (mocks.foldl registerStep acc).2)
      ∧ (mocks.foldl registerStep acc).2.Nodup := by
  induction mocks with
  | nil => intro acc h1 h2; exact ⟨h1, h2⟩
  | cons mock rest ih =>
    intro acc h1 h2
    have hstep := registerStep_invariant acc mock h1 h2
    exact ih (registerStep acc mock) hstep.1 hstep.2

theorem mocksFor_eq_nil_iff (mocks : List MockDefinition) (e : String) :
    mocksFor mocks e = [] ↔ e ∉ mocks.map MockDefinition.endpoint := by
  induction mocks with
  | nil => simp [mocksFor]
  | cons mock rest ih =>
    rw [mocksFor_cons]
    by_cases h : mock.endpoint = e
    · rw [if_pos h]
      constructor
      · intro hc; exact absurd hc (List.cons_ne_nil _ _)
      · intro hc
        exact absurd (by simp [List.mem_cons, h.symm]) hc
    · rw [if_neg h, ih]
      simp [List.map_cons, List.mem_cons, Ne.symm h]

/-! ## Dispatch-chain lemmas -/

theorem runChain_map_mock (m : String) (l : List MockDefinition) :
    runChainFrom m (l.map mockMiddleware) =
      match l.find? (fun d => d.method == m) with
      | some d => handleMockResponse d
      | none => notFoundReply := by
  induction l with
  | nil => rfl
  | cons d rest ih =>
    show runChainFrom m (mockMiddleware d :: rest.map mockMiddleware) = _
    by_cases h : m = d.method
    · have hb : (d.method == m) = true := beq_iff_eq.mpr h.symm
      simp [runChainFrom, mockMiddleware, List.find?, hb, h]
    · have hb : (d.method == m) = false := beq_eq_false_iff_ne.mpr (Ne.symm h)
      simp [runChainFrom, mockMiddleware, List.find?, hb, h, ih]

theorem find?_of_minimal (l : List MockDefinition) (m : String) :
    ∀ i (h : i < l.length),
      (l.get ⟨i, h⟩).method = m →
      (∀ j (hj : j < l.length), j < i → (l.get ⟨j, hj⟩).method ≠ m) →
      l.find? (fun d => d.method == m) = some (l.get ⟨i, h⟩) := by
  induction l with
  | nil => intro i h; exact absurd h (Nat.not_lt_zero i)
  | cons d rest ih =>
    intro i h hm hmin
    cases i with
    | zero =>
      have hb : (d.method == m) = true := beq_iff_eq.mpr hm
      simp [List.find?, hb]
    | succ k =>
      have hd : d.method ≠ m := hmin 0 (Nat.succ_pos _) (Nat.succ_pos k)
      have hb : (d.method == m) = false := beq_eq_false_iff_ne.mpr hd
      have hk : k < rest.length := Nat.lt_of_succ_lt_succ h
      have hm2 : (rest.get ⟨k, hk⟩).method = m := hm
      have hmin2 : ∀ j (hj : j < rest.length), j < k → (rest.get ⟨j, hj⟩).method ≠ m := by
        intro j hj hjk
        exact hmin (j + 1) (Nat.succ_lt_succ hj) (Nat.succ_lt_succ hjk)
      simp [List.find?, hb]
      exact ih k hk hm2 hmin2

/-! ## Header-overlay lemmas -/

theorem lookupH_setKey_self (l : List (String × String)) (k v : String) :
    lookupH (setKey l k v) k = some v := by
  induction l with
  | nil => simp [setKey, lookupH]
  | cons hd tl ih =>
    by_cases h : hd.1 = k
    · simp [setKey, lookupH, h]
    · simp [setKey, lookupH, h, ih]

theorem lookupH_setKey_ne (l : List (String × String)) (key k v : String)
    (h : k ≠ key) : lookupH (setKey l key v) k = lookupH l k := by
  induction l with
  | nil => simp [setKey, lookupH, Ne.symm h]
  | cons hd tl ih =>
    by_cases hk : hd.1 = key
    · simp [setKey, lookupH, hk, Ne.symm h]
    · simp only [setKey, hk, ite_false, lookupH]
      by_cases hh : hd.1 = k
      · simp [hh]
      · simp [hh, ih]

theorem lookupH_eq_none_of_not_mem (l : List (String × String)) (k : String)
    (h : k ∉ l.map Prod.fst) : lookupH l k = none := by
  induction l with
  | nil => rfl
  | cons hd tl ih =>
    simp only [List.map_cons, List.mem_cons, not_or] at h
    simp [lookupH, Ne.symm h.1, ih h.2]

theorem overlay_cons (base : List (String × String)) (kv : String × String)
    (rest : List (String × String)) :
    overlay base (kv :: rest) = overlay (setKey base kv.1 kv.2) rest := rfl

theorem lookupH_overlay (upd : List (String × String)) :
    ∀ base, (upd.map Prod.fst).Nodup →
      (∀ k v, lookupH upd k = some v → lookupH (overlay base upd) k = some v)
      ∧ (∀ k, lookupH upd k = none → lookupH (overlay base upd) k = lookupH base k) := by
  induction upd with
  | nil =>
    intro base hnd
    exact ⟨fun k v hv => by simp [lookupH] at hv, fun k hk => rfl⟩
  | cons kv rest ih =>
    intro base hnd
    simp only [List.map_cons, List.nodup_cons] at hnd
    have hknotin : kv.1 ∉ rest.map Prod.fst := hnd.1
    have ihb := ih (setKey base kv.1 kv.2) hnd.2
    constructor
    · intro k v hv
      rw [overlay_cons]
      have hcons : lookupH (kv :: rest) k =
          if kv.1 = k then some kv.2 else lookupH rest k := rfl
      rw [hcons] at hv
      by_cases h : kv.1 = k
      · rw [if_pos h] at hv
        have hveq : v = kv.2 := (Option.some.inj hv).symm
        subst hveq
        have hrestnone : lookupH rest k = none :=
          lookupH_eq_none_of_not_mem rest k (h ▸ hknotin)
        rw [ihb.2 k hrestnone, ← h, lookupH_setKey_self]
      · rw [if_neg h] at hv
        exact ihb.1 k v hv
    · intro k hk
      rw [overlay_cons]
      have hcons : lookupH (kv :: rest) k =
          if kv.1 = k then some kv.2 else lookupH rest k := rfl
      rw [hcons] at hk
      by_cases h : kv.1 = k
      · rw [if_pos h] at hk
        exact Option.noConfusion hk
      · rw [if_neg h] at hk
        rw [ihb.2 k hk, lookupH_setKey_ne _ _ _ _ (Ne.symm h)]

/-! ## Loader error-kind lemmas -/

theorem loadMockFromJson_error_kinds (path : String) (content : Option Json)
    (e : LoadError) (h : loadMockFromJson path content = .error e) :
    e = .invalidJson path ∨ e = .schemaError path := by
  cases content with
  | none =>
    simp [loadMockFromJson] at h
    exact Or.inl h.symm
  | some j =>
    simp only [loadMockFromJson] at h
    cases hl : decodeMockList j with
    | some ms => rw [hl] at h; exact absurd h (by simp)
    | none =>
      rw [hl] at h
      cases hm : decodeMock j with
      | some mock => rw [hm] at h; exact absurd h (by simp)
      | none =>
        rw [hm] at h
        simp at h
        exact Or.inr h.symm

theorem processEntries_fail_kinds (entries : List FsNode) :
    ∀ q mocks e, processEntries entries q mocks = .fail e →
      ∃ p, e = .invalidJson p ∨ e = .schemaError p := by
  induction entries with
  | nil => intro q mocks e h; simp [processEntries] at h
  | cons hd rest ih =>
    intro q mocks e h
    cases hd with
    | dir n sub =>
      simp only [processEntries] at h
      cases hpush : pushDir q sub with
      | none => rw [hpush] at h; exact absurd h (by simp)
      | some q2 => rw [hpush] at h; exact ih q2 mocks e h
    | file name data =>
      simp only [processEntries] at h
      cases hjson : name.endsWith ".json" with
      | false =>
        rw [hjson] at h
        simp only [Bool.false_eq_true, if_false] at h
        exact ih q mocks e h
      | true =>
        rw [hjson] at h
        simp only [if_true] at h
        cases hload : loadMockFromJson name data with
        | error e2 =>
          rw [hload] at h
          simp only [StepResult.fail.injEq] at h
          subst h
          exact ⟨name, loadMockFromJson_error_kinds name data e2 hload⟩
        | ok ms =>
          rw [hload] at h
          exact ih q (mocks ++ ms) e h

theorem processEntries_ok_length (entries : List FsNode) :
    ∀ q mocks q2 m2, q.length ≤ MAX_DIRECTORY_COUNT →
      processEntries entries q mocks = .ok q2 m2 →
      q2.length ≤ MAX_DIRECTORY_COUNT := by
  induction entries with
  | nil =>
    intro q mocks q2 m2 hq h
    simp only [processEntries, StepResult.ok.injEq] at h
    rw [← h.1]
    exact hq
  | cons hd rest ih =>
    intro q mocks q2 m2 hq h
    cases hd with
    | dir n sub =>
      simp only [processEntries] at h
      by_cases hfull : q.length = MAX_DIRECTORY_COUNT
      · simp [pushDir, hfull] at h
      · simp only [pushDir, hfull, ite_false, if_neg] at h
        have hlen : (q ++ [sub]).length ≤ MAX_DIRECTORY_COUNT := by
          simp [List.length_append]
          omega
        exact ih (q ++ [sub]) mocks q2 m2 hlen h
    | file name data =>
      simp only [processEntries] at h
      cases hjson : name.endsWith ".json" with
      | false =>
        rw [hjson] at h
        simp only [Bool.false_eq_true, if_false] at h
        exact ih q mocks q2 m2 hq h
      | true =>
        rw [hjson] at h
        simp only [if_true] at h
        cases hload : loadMockFromJson name data with
        | error e2 => rw [hload] at h; exact absurd h (by simp)
        | ok ms =>
          rw [hload] at h
          exact ih q (mocks ++ ms) q2 m2 hq h

/-- The `DirectoryLimitExceeded` return of `loadMocks` is dead code: along any
run started with at most `MAX_DIRECTORY_COUNT` pending directories, the length
of the channel buffer never exceeds its capacity (a send to a full buffer
blocks instead), so the `len(dirStack) > MAX_DIRECTORY_COUNT` guard never
fires. -/
theorem loadMocksAux_no_dirLimit :
    ∀ (n : Nat) (q : List (List FsNode)) (mocks : List MockDefinition),
      queueMeasure q ≤ n → q.length ≤ MAX_DIRECTORY_COUNT →
      ∀ kk, loadMocksAux q mocks ≠ .fail (.dirLimitExceeded kk) := by
  intro n
  induction n using Nat.strong_induction_on with
  | _ n ihn =>
    intro q mocks hmeas hlen kk
    cases q with
    | nil => simp [loadMocksAux]
    | cons es rest =>
      rw [loadMocksAux]
      rw [if_neg (by omega : ¬ (es :: rest).length > MAX_DIRECTORY_COUNT)]
      split
      · rename_i e heq
        intro hcontra
        obtain ⟨p, hp⟩ := processEntries_fail_kinds (sortEntries es) rest mocks e heq
        cases hp with
        | inl h1 => rw [h1] at hcontra; exact LoadError.noConfusion (LoadOutcome.fail.inj hcontra)
        | inr h1 => rw [h1] at hcontra; exact LoadError.noConfusion (LoadOutcome.fail.inj hcontra)
      · simp
      · rename_i q2 m2 heq
        have h1 := processEntries_ok_measure (sortEntries es) rest mocks q2 m2 heq
        have h2 := dirsWeight_sortEntries es
        have h3 := dirsWeight_le_entriesSize es
        have hq : queueMeasure (es :: rest) = 1 + entriesSize es + queueMeasure rest := rfl
        have hlen2 : q2.length ≤ MAX_DIRECTORY_COUNT := by
          apply processEntries_ok_length (sortEntries es) rest mocks q2 m2 _ heq
          simp at hlen
          omega
        exact ihn (queueMeasure q2) (by omega) q2 m2 (Nat.le_refl _) hlen2 kk

theorem find?_none_of_no_match (l : List MockDefinition) (m : String)
    (h : ∀ d ∈ l, d.method ≠ m) : l.find? (fun d => d.method == m) = none := by
  induction l with
  | nil => rfl
  | cons d rest ih =>
    have hb : (d.method == m) = false :=
      beq_eq_false_iff_ne.mpr (h d (List.mem_cons_self d rest))
    simp [List.find?, hb]
    exact fun x hx => h x (List.mem_cons_of_mem d hx)

/-! ## Claim theorems -/

/-- Sample definitions used to instantiate the claim theorems on concrete
inputs.  `mockA` and `mockB` are two definitions for the same endpoint and the
same method, loaded in this order. -/
def mockA : MockDefinition := ⟨"/users", "GET", ⟨Json.str "first", [], 0⟩⟩

/-- A later duplicate of `mockA`'s endpoint and method. -/
def mockB : MockDefinition := ⟨"/users", "GET", ⟨Json.str "second", [], 0⟩⟩

/-- C1: for an endpoint whose loaded definitions are D1..DN in order, a request
whose method equals Di's method for minimal i receives Di's rendered response —
the chain scans pairs in insertion order and invokes the first match, so a
later duplicate of the same method is never reached. -/
theorem first_matching_definition_wins (mocks : List MockDefinition) (e m : String)
    (i : Nat) (h : i < (mocksFor mocks e).length)
    (hm : ((mocksFor mocks e).get ⟨i, h⟩).method = m)
    (hmin : ∀ j (hj : j < (mocksFor mocks e).length), j < i →
      ((mocksFor mocks e).get ⟨j, hj⟩).method ≠ m) :
    serveRequest mocks m e = some (handleMockResponse ((mocksFor mocks e).get ⟨i, h⟩)) := by
  have hne : mocksFor mocks e ≠ [] := by
    intro hnil
    rw [hnil] at h
    exact absurd h (by simp)
  have hlook := buildRoutes_lookup_of_ne_nil mocks e hne
  have hfind := find?_of_minimal (mocksFor mocks e) m i h hm hmin
  simp only [serveRequest, hlook]
  rw [runChain_map_mock, hfind]

/-- The C1 theorem applied to two duplicate (endpoint, method) definitions:
the earlier one answers, the later is shadowed. -/
theorem first_matching_definition_wins_witness :
    serveRequest [mockA, mockB] "GET" "/users" = some (handleMockResponse mockA) :=
  first_matching_definition_wins [mockA, mockB] "/users" "GET" 0 (by decide)
    rfl (fun j hj hj0 => absurd hj0 (Nat.not_lt_zero j))

/-- C3: a request to a registered endpoint whose method matches none of the
entry's pairs runs past the end of the scan and is answered with status 404
and an empty body (and no headers added). -/
theorem unmatched_method_yields_404 (mocks : List MockDefinition) (e m : String)
    (hne : mocksFor mocks e ≠ [])
    (hnm : ∀ d ∈ mocksFor mocks e, d.method ≠ m) :
    serveRequest mocks m e = some ⟨404, [], ""⟩ := by
  have hlook := buildRoutes_lookup_of_ne_nil mocks e hne
  have hfind := find?_none_of_no_match (mocksFor mocks e) m hnm
  simp only [serveRequest, hlook]
  rw [runChain_map_mock, hfind]
  rfl

/-- The C3 theorem applied to a DELETE request against GET-only definitions. -/
theorem unmatched_method_yields_404_witness :
    serveRequest [mockA, mockB] "DELETE" "/users" = some ⟨404, [], ""⟩ :=
  unmatched_method_yields_404 [mockA, mockB] "/users" "DELETE"
    (by simp [show mocksFor [mockA, mockB] "/users" = [mockA, mockB] from rfl])
    (by decide)

/-- C7: when the first method-matching middleware signals an internal failure
(calls `next` with a non-nil error), the chain writes status 500 with empty
body and scans no further pairs, whatever middlewares follow. -/
theorem responder_error_stops_chain (m : String) (mws : List ChainMiddleware) :
    ∀ i (h : i < mws.length),
      (mws.get ⟨i, h⟩).method = m →
      (mws.get ⟨i, h⟩).behavior = MWBehavior.signalError →
      (∀ j (hj : j < mws.length), j < i → (mws.get ⟨j, hj⟩).method ≠ m) →
      runChainFrom m mws = ⟨500, [], ""⟩ := by
  induction mws with
  | nil => intro i h; exact absurd h (Nat.not_lt_zero i)
  | cons mw rest ih =>
    intro i h hm hb hmin
    cases i with
    | zero =>
      have hm0 : mw.method = m := hm
      have hb0 : mw.behavior = MWBehavior.signalError := hb
      simp [runChainFrom, hm0, hb0, serverErrorReply]
    | succ k =>
      have hd : mw.method ≠ m := hmin 0 (Nat.succ_pos _) (Nat.succ_pos k)
      have hcond : m ≠ mw.method := Ne.symm hd
      have hk : k < rest.length := Nat.lt_of_succ_lt_succ h
      have hmin2 : ∀ j (hj : j < rest.length), j < k → (rest.get ⟨j, hj⟩).method ≠ m :=
        fun j hj hjk => hmin (j + 1) (Nat.succ_lt_succ hj) (Nat.succ_lt_succ hjk)
      simp only [runChainFrom, hcond, ite_false, if_neg]
      exact ih k hk hm hb hmin2

/-- A middleware that signals an internal failure on GET. -/
def errorMW : ChainMiddleware := ⟨"GET", MWBehavior.signalError⟩

/-- A later middleware for the same method that would answer 200. -/
def fallbackMW : ChainMiddleware := ⟨"GET", MWBehavior.write ⟨200, [], "later"⟩⟩

/-- The C7 theorem applied where a matching fallback exists after the failing
middleware: the reply is still the 500, so there is no fallback on error. -/
theorem responder_error_stops_chain_witness :
    runChainFrom "GET" [errorMW, fallbackMW] = ⟨500, [], ""⟩ :=
  responder_error_stops_chain "GET" [errorMW, fallbackMW] 0 (by decide) rfl rfl
    (fun j hj hj0 => absurd hj0 (Nat.not_lt_zero j))

/-- C8: route-table construction registers exactly one dispatcher per distinct
endpoint (the mux registrations are distinct and are exactly the loaded
endpoints), each endpoint's entry is the ordered list of middlewares for its
definitions in load order, and every entry holds at least one pair. -/
theorem route_table_construction_invariants (mocks : List MockDefinition) :
    ((buildRoutes mocks).2.Nodup
      ∧ (∀ e, e ∈ (buildRoutes mocks).2 ↔ e ∈ mocks.map MockDefinition.endpoint))
    ∧ (∀ e, mocksFor mocks e ≠ [] →
        alLookup (buildRoutes mocks).1 e = some ((mocksFor mocks e).map mockMiddleware))
    ∧ (∀ e mws, alLookup (buildRoutes mocks).1 e = some mws → mws ≠ []) := by
  have hbase1 : ∀ e, alLookup (([], []) : RouteTable × List String).1 e = none ↔
      e ∉ (([], []) : RouteTable × List String).2 := by
    intro e; simp [alLookup]
  have hinv := mux_foldl_invariant mocks ([], []) hbase1 (by simp)
  refine ⟨⟨hinv.2, fun e => ?_⟩,
    fun e hne => buildRoutes_lookup_of_ne_nil mocks e hne, fun e mws hlook => ?_⟩
  · constructor
    · intro hmem
      by_contra hc
      have hnil : mocksFor mocks e = [] := (mocksFor_eq_nil_iff mocks e).mpr hc
      have hnone := buildRoutes_lookup_of_nil mocks e hnil
      exact absurd hmem ((hinv.1 e).mp hnone)
    · intro hmem
      by_contra hc
      have hnone : alLookup (buildRoutes mocks).1 e = none := (hinv.1 e).mpr hc
      rw [buildRoutes_lookup] at hnone
      cases hl : mocksFor mocks e with
      | nil => exact absurd hmem ((mocksFor_eq_nil_iff mocks e).mp hl)
      | cons d rest =>
        rw [hl] at hnone
        simp [chainExtend] at hnone
  · rw [buildRoutes_lookup] at hlook
    cases hl : mocksFor mocks e with
    | nil =>
      rw [hl] at hlook
      exact Option.noConfusion hlook
    | cons d rest =>
      rw [hl] at hlook
      simp only [chainExtend, Option.some.injEq] at hlook
      rw [← hlook]
      simp

/-- The C8 theorem applied to two definitions on one endpoint: the single
entry holds both pairs in load order. -/
theorem route_table_construction_invariants_witness :
    alLookup (buildRoutes [mockA, mockB]).1 "/users" =
      some ([mockA, mockB].map mockMiddleware) :=
  (route_table_construction_invariants [mockA, mockB]).2.1 "/users"
    (by simp [show mocksFor [mockA, mockB] "/users" = [mockA, mockB] from rfl])

/-- C9: a status code of 0 — the Go zero value left by an omitted `statusCode`
field — renders as 200; any nonzero code renders as itself; the rendered
status is never 0; and an omitted `statusCode` decodes to 0. -/
theorem status_zero_normalized_to_200 :
    (∀ mock : MockDefinition, mock.response.statusCode = 0 →
        (handleMockResponse mock).status = 200)
    ∧ (∀ mock : MockDefinition, mock.response.statusCode ≠ 0 →
        (handleMockResponse mock).status = mock.response.statusCode)
    ∧ (∀ mock : MockDefinition, (handleMockResponse mock).status ≠ 0)
    ∧ (∀ fs r, decodeResponse (some (Json.obj fs)) = some r →
        objLookup fs "statusCode" = none → r.statusCode = 0) := by
  refine ⟨fun mock h => by simp [handleMockResponse, h],
    fun mock h => by simp [handleMockResponse, h],
    fun mock => ?_, fun fs r hdec hnone => ?_⟩
  · by_cases h : mock.response.statusCode = 0
    · simp [handleMockResponse, h]
    · simp [handleMockResponse, h]
  · simp only [decodeResponse, hnone] at hdec
    cases hh : decodeHeaders (objLookup fs "headers") with
    | none => rw [hh] at hdec; simp at hdec
    | some headers =>
      rw [hh] at hdec
      simp [decodeStatusCode] at hdec
      rw [← hdec]

/-- A definition whose `statusCode` was omitted (Go zero value 0). -/
def mockZeroStatus : MockDefinition := ⟨"/z", "GET", ⟨Json.null, [], 0⟩⟩

/-- The C9 theorem applied to a zero status code. -/
theorem status_zero_normalized_to_200_witness :
    (handleMockResponse mockZeroStatus).status = 200 :=
  status_zero_normalized_to_200.1 mockZeroStatus rfl

/-- C5: the rendered headers are the fixed base set (Content-Type plus the
Server header) overlaid by the definition's declared headers, the definition
winning on every overlapping key and the base surviving elsewhere. -/
theorem declared_headers_override_base (mock : MockDefinition)
    (hnd : (mock.response.headers.map Prod.fst).Nodup) :
    (∀ k v, lookupH mock.response.headers k = some v →
        lookupH (handleMockResponse mock).headers k = some v)
    ∧ (∀ k, lookupH mock.response.headers k = none →
        lookupH (handleMockResponse mock).headers k = lookupH baseHeaders k) :=
  lookupH_overlay mock.response.headers baseHeaders hnd

/-- A definition declaring its own Content-Type. -/
def mockCT : MockDefinition :=
  ⟨"/ct", "GET", ⟨Json.null, [("Content-Type", "text/plain")], 0⟩⟩

/-- The C5 theorem applied to a declared Content-Type: it replaces the base
`application/json` value. -/
theorem declared_headers_override_base_witness :
    lookupH (handleMockResponse mockCT).headers "Content-Type" = some "text/plain" :=
  (declared_headers_override_base mockCT (by decide)).1 "Content-Type" "text/plain" rfl

/-- C4: a mapping body is serialized as compact JSON and every other body is
rendered as its direct textual representation with no JSON quoting; in
particular the object with field a mapped to 1 yields exactly the seven bytes
of its compact JSON form, and the scalar string ok yields the two bytes ok. -/
theorem body_serialization_shape :
    (∀ fields, serialize (Json.obj fields) = jsonMarshal (Json.obj fields))
    ∧ (∀ v : Json, (∀ fields, v ≠ Json.obj fields) → serialize v = goSprint v)
    ∧ (∀ s, serialize (Json.str s) = s)
    ∧ serialize (Json.obj [("a", Json.num 1)]) = "\x7b\"a\":1\x7d"
    ∧ serialize (Json.str "ok") = "ok" := by
  refine ⟨fun fields => rfl, fun v hv => ?_, fun s => rfl, rfl, rfl⟩
  cases v with
  | obj fields => exact absurd rfl (hv fields)
  | null => rfl
  | bool b => rfl
  | num n => rfl
  | str s => rfl
  | arr xs => rfl

/-- The C4 theorem applied to a non-mapping value. -/
theorem body_serialization_shape_witness :
    serialize (Json.str "ok") = goSprint (Json.str "ok") :=
  body_serialization_shape.2.1 (Json.str "ok") (fun fields h => Json.noConfusion h)

/-- C10: a definition whose body is absent or JSON null holds the nil
interface, which the non-mapping branch renders as the five bytes of the Go
nil text — not an empty body and not the bytes of the word null; and an absent
or null `body` field indeed decodes to the nil interface. -/
theorem nil_body_renders_nil_text :
    (∀ mock : MockDefinition, mock.response.body = Json.null →
        (handleMockResponse mock).body = "<nil>")
    ∧ (∀ fs r, decodeResponse (some (Json.obj fs)) = some r →
        objLookup fs "body" = none → r.body = Json.null)
    ∧ (∀ fs r, decodeResponse (some (Json.obj fs)) = some r →
        objLookup fs "body" = some Json.null → r.body = Json.null)
    ∧ (∀ mock : MockDefinition, mock.response.body = Json.null →
        (handleMockResponse mock).body ≠ "" ∧ (handleMockResponse mock).body ≠ "null") := by
  refine ⟨fun mock h => by simp [handleMockResponse, h, serialize, goSprint],
    fun fs r hdec hb => ?_, fun fs r hdec hb => ?_,
    fun mock h => by
      refine ⟨?_, ?_⟩ <;> simp [handleMockResponse, h, serialize, goSprint]⟩
  · simp only [decodeResponse, hb] at hdec
    cases hh : decodeHeaders (objLookup fs "headers") with
    | none => rw [hh] at hdec; simp at hdec
    | some headers =>
      rw [hh] at hdec
      cases hs : decodeStatusCode (objLookup fs "statusCode") with
      | none => rw [hs] at hdec; simp at hdec
      | some sc =>
        rw [hs] at hdec
        simp at hdec
        rw [← hdec]
  · simp only [decodeResponse, hb] at hdec
    cases hh : decodeHeaders (objLookup fs "headers") with
    | none => rw [hh] at hdec; simp at hdec
    | some headers =>
      rw [hh] at hdec
      cases hs : decodeStatusCode (objLookup fs "statusCode") with
      | none => rw [hs] at hdec; simp at hdec
      | some sc =>
        rw [hs] at hdec
        simp [normalizeJson] at hdec
        rw [← hdec]

/-- A definition with an absent body (the nil interface). -/
def mockNilBody : MockDefinition := ⟨"/n", "GET", ⟨Json.null, [], 0⟩⟩

/-- The C10 theorem applied to a nil body. -/
theorem nil_body_renders_nil_text_witness :
    (handleMockResponse mockNilBody).body = "<nil>" :=
  nil_body_renders_nil_text.1 mockNilBody rfl

/-- C6: a syntactically valid file is parsed by trying exactly two shapes in
order — array of definitions first, then a single definition — returning the
result of whichever succeeds, and the load fails when neither parses; invalid
bytes fail before either attempt. -/
theorem mock_file_two_parse_shapes (path : String) (j : Json) :
    (loadMockFromJson path none = .error (.invalidJson path))
    ∧ (∀ ms, decodeMockList j = some ms → loadMockFromJson path (some j) = .ok ms)
    ∧ (decodeMockList j = none → ∀ mk, decodeMock j = some mk →
        loadMockFromJson path (some j) = .ok [mk])
    ∧ (decodeMockList j = none → decodeMock j = none →
        loadMockFromJson path (some j) = .error (.schemaError path)) := by
  refine ⟨rfl, fun ms h => ?_, fun h1 mk h2 => ?_, fun h1 h2 => ?_⟩
  · simp [loadMockFromJson, h]
  · simp [loadMockFromJson, h1, h2]
  · simp [loadMockFromJson, h1, h2]

/-- A GET definition decoded from the sample array document. -/
def sampleGet : MockDefinition := ⟨"/a", "GET", ⟨Json.str "ok", [], 201⟩⟩

/-- A POST definition (response omitted) decoded from the sample document. -/
def samplePost : MockDefinition := ⟨"/a", "POST", ⟨Json.null, [], 0⟩⟩

/-- A file holding a JSON array of two definitions for the same endpoint with
different methods. -/
def sampleArrayDoc : Json := Json.arr
  [Json.obj [("endpoint", Json.str "/a"), ("method", Json.str "GET"),
      ("response", Json.obj [("body", Json.str "ok"), ("statusCode", Json.num 201)])],
   Json.obj [("endpoint", Json.str "/a"), ("method", Json.str "POST")]]

/-- The C6 theorem applied to the sample array document: both definitions are
returned, in file order. -/
theorem mock_file_two_parse_shapes_witness :
    loadMockFromJson "api.json" (some sampleArrayDoc) = .ok [sampleGet, samplePost] :=
  (mock_file_two_parse_shapes "api.json" sampleArrayDoc).2.1 [sampleGet, samplePost] rfl

/-- A root directory holding 21 subdirectories: one more than the channel
capacity of the work queue. -/
def wideRoot : List FsNode :=
  (List.range 21).map (fun i => FsNode.dir (toString i) [])

/-- C2 (refuted; the code contradicts the intent of its own guard): when the
21st directory becomes pending, the send on the full `dirStack` channel blocks
forever instead of returning `DirectoryLimitExceeded`, and no run of
`loadMocks` can ever return the `DirectoryLimitExceeded` error, because a
channel's length never exceeds its capacity, leaving the guard dead. -/
theorem dirLimit_guard_dead_traversal_blocks :
    loadMocks wideRoot = LoadOutcome.blocked
    ∧ (∀ root kk, loadMocks root ≠ LoadOutcome.fail (LoadError.dirLimitExceeded kk)) := by
  constructor
  · rw [loadMocks, loadMocksAux]
    norm_num
    rfl
  · intro root kk
    apply loadMocksAux_no_dirLimit (queueMeasure [root]) [root] [] (Nat.le_refl _)
    simp [MAX_DIRECTORY_COUNT]

/-- The C2 theorem applied at the 21-subdirectory tree and the configured
limit. -/
theorem dirLimit_guard_dead_traversal_blocks_witness :
    loadMocks wideRoot ≠ LoadOutcome.fail (LoadError.dirLimitExceeded 20) :=
  dirLimit_guard_dead_traversal_blocks.2 wideRoot 20

end MockServer
